import Mathlib

/-!
Verification of the AST execution engine of the terminal-automation gateway
(`src/gateway/src/core/ast`): a shallow embedding of `runner.py`,
`executor.py`, `base.py` and the persistence call protocol of
`persistence.py`, together with proofs about the embedded code.

Modelling conventions:
- The AST script's hooks (`authenticate`, `validate_item`,
  `process_single_item`, `get_item_id`, `logoff`), the observed values of the
  shared pause/cancel flags at each check point, and the fate of each parallel
  worker (normal completion or an exception at session setup / authentication /
  mid-batch) are gathered in an oracle structure `ASTBehavior`; the executors
  are translated as pure functions over that oracle.
- Persistence calls (`create_execution_record`, `save_item_result`,
  `update_execution_record`) and the logoff attempt are recorded in an event
  trace `PEvent`; the store itself is external and best-effort, so only the
  calls matter.
- Wall-clock timestamps, durations and the free-form per-item `data` payload
  (screenshots, error screens) are not modelled; no claim depends on them.
- Parallel workers append to the shared results list under a single lock in
  the source; the model runs the workers in worker-id order, which realises
  one admissible serialisation of those lock-protected critical sections.
-/

/-- Status of a single item, `ItemResult.status` in `base.py`. -/
inductive ItemStatus
  | success
  | failed
  | skipped
deriving DecidableEq, Repr

/-- Status of an AST execution, `ASTStatus` in `base.py`. -/
inductive ASTStatus
  | pending
  | running
  | success
  | failed
  | cancelled
  | timeout
deriving DecidableEq, Repr

/-- Result of processing one item (`ItemResult` in `base.py`, timing and data
payload omitted). -/
structure ItemResult where
  item_id : String
  status : ItemStatus
  error : Option String
deriving DecidableEq, Repr

/-- Outcome of one call to `ast.process_single_item`: a `(True, _, data)`
return, a `(False, error, _)` return, or a raised exception. -/
inductive ProcOutcome
  | ok
  | err (msg : String)
  | raises (msg : String)
deriving DecidableEq, Repr

/-- Outcome of one call to `ast.logoff`. -/
inductive LogoffOutcome
  | ok
  | notOk (msg : String)
  | raises (msg : String)
deriving DecidableEq, Repr

/-- Fate of one parallel worker in `ParallelExecutor._process_batch_in_session`:
it either completes its batch normally, or the try-block raises at session
creation / authentication (before any item), or it raises mid-batch after `k`
items of its batch have been recorded. -/
inductive WorkerFate
  | ok
  | crashAtSetup (msg : String)
  | crashAfter (k : Nat) (msg : String)
deriving DecidableEq, Repr

/-- Oracle for one run: the AST subclass's hooks together with the values the
shared pause/cancel state is observed to have at each cooperative check
point. `waitIfPaused i` is the value returned by the `i`-th
`ast.wait_if_paused()` call of the sequential loop; `cancelAt w p` is the
value of `ast.is_cancelled` read by worker `w` before its `p`-th batch item;
`isCancelledFinal` is the value read by `_finalize_result`. -/
structure ASTBehavior (Item : Type) where
  getItemId : Item → String
  validate : Item → Bool
  authOutcome : Bool × String
  proc : Item → Nat → Nat → ProcOutcome
  waitIfPaused : Nat → Bool
  cancelAt : Nat → Nat → Bool
  isCancelledFinal : Bool
  logoffOutcome : LogoffOutcome
  workerFate : Nat → WorkerFate

/-- Persistence / cleanup events emitted by an execution, in call order. -/
inductive PEvent
  | createExec
  | saveItem (id : String) (st : ItemStatus)
  | logoffAttempt (o : LogoffOutcome)
  | updateExec (st : String)
deriving DecidableEq, Repr

/-- Whether an event is an `update_execution_record` call. -/
def PEvent.isUpdate : PEvent → Bool
  | .updateExec _ => true
  | _ => false

/-- Whether an event is a `create_execution_record` call. -/
def PEvent.isCreate : PEvent → Bool
  | .createExec => true
  | _ => false

/-- Whether an event is a logoff attempt. -/
def PEvent.isLogoff : PEvent → Bool
  | .logoffAttempt _ => true
  | _ => false

/-- Whether an event is a `save_item_result` call. -/
def PEvent.isSave : PEvent → Bool
  | .saveItem _ _ => true
  | _ => false

/-- The execution result (`ASTResult` in `base.py`): status, message, error,
the ordered item results, and the `successCount`/`failedCount`/`skippedCount`
entries that `_finalize_result` adds to `result.data` (absent before
finalisation). -/
structure ASTResultM where
  status : ASTStatus
  message : String
  error : Option String
  itemResults : List ItemResult
  counts : Option (Nat × Nat × Nat)
deriving DecidableEq, Repr

/-- Embedding of `ASTExecutor._process_single_item_no_auth`: a successful
`process_single_item` yields a `success` result; a `(False, error, _)` return
raises `Exception(f"Process failed: {error}")` which the handler converts to a
`failed` result; any other exception becomes a `failed` result with the
exception text. -/
def processSingleItemNoAuth {Item : Type} (b : ASTBehavior Item)
    (item : Item) (index total : Nat) : ItemResult :=
  match b.proc item index total with
  | .ok => ⟨b.getItemId item, .success, none⟩
  | .err m => ⟨b.getItemId item, .failed, some ("Process failed: " ++ m)⟩
  | .raises m => ⟨b.getItemId item, .failed, some m⟩

/-- The item loop of `SequentialExecutor._process_items`: at index `idx` the
loop first checks `wait_if_paused` (breaking when it returns false), then
either synthesises a `skipped` result for an invalid item or processes the
item with 1-based index `idx + 1`. -/
def seqLoop {Item : Type} (b : ASTBehavior Item) (total : Nat) :
    List Item → Nat → List ItemResult
  | [], _ => []
  | item :: rest, idx =>
    if ¬ b.waitIfPaused idx then []
    else
      let r :=
        if ¬ b.validate item then
          ⟨b.getItemId item, ItemStatus.skipped, some "Invalid item"⟩
        else processSingleItemNoAuth b item (idx + 1) total
      r :: seqLoop b total rest (idx + 1)

/-- Embedding of `SequentialExecutor._process_items` up to the item results:
a missing host raises `ValueError`, an authentication failure raises
`Exception(f"Login failed: {error}")` (both surface as `Except.error`),
otherwise the item loop runs. The logoff of the `finally` block is emitted as
an event by `executeSeq`. -/
def seqProcessItems {Item : Type} (b : ASTBehavior Item)
    (hostAttached : Bool) (items : List Item) :
    Except String (List ItemResult) :=
  if ¬ hostAttached then
    Except.error "Host session required for sequential execution"
  else if b.authOutcome.1 then
    Except.ok (seqLoop b items.length items 0)
  else
    Except.error ("Login failed: " ++ b.authOutcome.2)

/-- Count of item results with a given status. -/
def countStatus (s : ItemStatus) (rs : List ItemResult) : Nat :=
  (rs.filter (fun r => r.status = s)).length

/-- Embedding of `ASTExecutor._finalize_result`: aggregate the counts, decide
`cancelled` versus `success`, and return the finalised result together with
the status string written to the execution record. -/
def finalizeResult {Item : Type} (b : ASTBehavior Item) (total : Nat)
    (rs : List ItemResult) : ASTResultM × String :=
  let sc := countStatus .success rs
  let fc := countStatus .failed rs
  let kc := countStatus .skipped rs
  if b.isCancelledFinal then
    ({ status := .cancelled, message := "Cancelled by user", error := none,
       itemResults := rs, counts := some (sc, fc, kc) }, "cancelled")
  else
    ({ status := .success,
       message := s!"Processed {total} items ({sc} success, {fc} failed, {kc} skipped)",
       error := none, itemResults := rs, counts := some (sc, fc, kc) },
     "success")

/-- The early result of `ASTExecutor.execute` for an empty item list. -/
def emptyItemsResult : ASTResultM :=
  { status := .success, message := "No items to process", error := none,
    itemResults := [], counts := none }

/-- The result `ASTExecutor._handle_execution_error` builds for a fatal
error `e` (the local `item_results` is still empty at that point). -/
def executionErrorResult (e : String) : ASTResultM :=
  { status := .failed, message := "Error during execution: " ++ e,
    error := some e, itemResults := [], counts := none }

/-- Embedding of `ASTExecutor.execute` with a `SequentialExecutor`: create the
execution record, return early on an empty item list (note: without a
terminal update), otherwise run the item phase; a raised exception is handled
by `_handle_execution_error`, a normal return by `_finalize_result`. Each
recorded item result corresponds to one `save_item_result` call, the
`finally` block of `_process_items` to one logoff attempt. -/
def executeSeq {Item : Type} (b : ASTBehavior Item) (hostAttached : Bool)
    (items : List Item) : ASTResultM × List PEvent :=
  if items.isEmpty then (emptyItemsResult, [PEvent.createExec])
  else
    match seqProcessItems b hostAttached items with
    | .ok rs =>
      let (res, st) := finalizeResult b items.length rs
      (res, PEvent.createExec ::
        (rs.map (fun r => PEvent.saveItem r.item_id r.status) ++
          [PEvent.logoffAttempt b.logoffOutcome, PEvent.updateExec st]))
    | .error e =>
      (executionErrorResult e, [PEvent.createExec, PEvent.updateExec "failed"])

/-- The validation pass of `ParallelExecutor._process_items`: walk the items
once, synthesise a `skipped` result for each invalid item, and pair each valid
item with its 1-based original index. -/
def parValidate {Item : Type} (b : ASTBehavior Item) :
    List Item → Nat → List ItemResult × List (Item × Nat)
  | [], _ => ([], [])
  | item :: rest, idx =>
    let (rs, vs) := parValidate b rest (idx + 1)
    if ¬ b.validate item then
      (⟨b.getItemId item, ItemStatus.skipped, some "Invalid item"⟩ :: rs, vs)
    else
      (rs, (item, idx + 1) :: vs)

/-- The round-robin distribution loop of `ParallelExecutor._process_items`:
`batches[i % num_sessions].append(item)` over the enumerated valid items.
This models the loop on the `n ≥ 1` domain on which the source runs it; for
`n = 0` the source's first `i % 0` raises `ZeroDivisionError`, an error path
surfaced by `parProcessItems` before this loop is consulted. -/
def rrLoop {α : Type} (n : Nat) :
    List α → Nat → List (List α) → List (List α)
  | [], _, bs => bs
  | a :: rest, i, bs =>
    rrLoop n rest (i + 1) (bs.set (i % n) (bs.getD (i % n) [] ++ [a]))

/-- Round-robin distribution of a list into `n` batches, as in the source
(meaningful for `n ≥ 1`; see `rrLoop` for the `n = 0` error path). -/
def distributeRR {α : Type} (n : Nat) (l : List α) : List (List α) :=
  rrLoop n l 0 (List.replicate n [])

/-- Selection of the elements of a list whose running index (starting at `i`)
is congruent to `j` modulo `n` — the mathematical content of one round-robin
batch. -/
def selMod {α : Type} (n j : Nat) : List α → Nat → List α
  | [], _ => []
  | a :: rest, i =>
    (if i % n = j then [a] else []) ++ selMod n j rest (i + 1)

/-- The batch-processing loop of a healthy worker: check `ast.is_cancelled`
before each item (position `p` within the batch), then process the item with
its original index and append the result to the shared collector. -/
def runWorkerLoop {Item : Type} (b : ASTBehavior Item) (w total : Nat) :
    List (Item × Nat) → Nat → List ItemResult → List ItemResult
  | [], _, col => col
  | (item, oi) :: rest, pos, col =>
    if b.cancelAt w pos then col
    else
      runWorkerLoop b w total rest (pos + 1)
        (col ++ [processSingleItemNoAuth b item oi total])

/-- The batch-processing loop truncated after `k` recorded items: the prefix
of the loop a worker completes before an exception interrupts it. -/
def runWorkerLoopN {Item : Type} (b : ASTBehavior Item) (w total : Nat) :
    List (Item × Nat) → Nat → Nat → List ItemResult → List ItemResult
  | _, _, 0, col => col
  | [], _, _, col => col
  | (item, oi) :: rest, pos, k + 1, col =>
    if b.cancelAt w pos then col
    else
      runWorkerLoopN b w total rest (pos + 1) k
        (col ++ [processSingleItemNoAuth b item oi total])

/-- The exception handler of `_process_batch_in_session`: walk the whole
batch and, for each item whose id is not already carried by some collected
result, append a `failed` result with error `"Session failed: <reason>"`. -/
def crashHandler {Item : Type} (b : ASTBehavior Item) (msg : String) :
    List (Item × Nat) → List ItemResult → List ItemResult
  | [], col => col
  | (item, _) :: rest, col =>
    let id := b.getItemId item
    if col.any (fun r => r.item_id = id) then crashHandler b msg rest col
    else
      crashHandler b msg rest
        (col ++ [⟨id, ItemStatus.failed, some ("Session failed: " ++ msg)⟩])

/-- Embedding of `ParallelExecutor._process_batch_in_session` for worker `w`:
on a normal run the batch loop executes (logoff outcome is swallowed); if the
try-block raises at setup, at authentication, or after `k` recorded items,
the handler marks the not-yet-recorded batch items failed. -/
def runWorker {Item : Type} (b : ASTBehavior Item) (w total : Nat)
    (batch : List (Item × Nat)) (col : List ItemResult) : List ItemResult :=
  match b.workerFate w with
  | .ok => runWorkerLoop b w total batch 0 col
  | .crashAtSetup msg => crashHandler b msg batch col
  | .crashAfter k msg =>
    crashHandler b msg batch (runWorkerLoopN b w total batch 0 k col)

/-- Run the workers over their batches; empty batches get no worker. The
workers are serialised in worker-id order (see the module comment). -/
def runWorkers {Item : Type} (b : ASTBehavior Item) (total : Nat) :
    List (List (Item × Nat)) → Nat → List ItemResult → List ItemResult
  | [], _, col => col
  | batch :: rest, w, col =>
    runWorkers b total rest (w + 1)
      (if batch.isEmpty then col else runWorker b w total batch col)

/-- Embedding of `ParallelExecutor._process_items`: validation pass, early
return when no valid item remains, else round-robin distribution over
`num_sessions = min(maxSessions, |valid|)` sessions and the worker pool.
Worker exceptions are caught inside `_process_batch_in_session` (and again at
`future.result()`), so workers never fault this function — but with
`maxSessions = 0` and a non-empty valid list, `num_sessions = 0` and the
distribution loop itself raises `ZeroDivisionError` at `batches[i % 0]` on
its first iteration, surfaced here as `Except.error`. -/
def parProcessItems {Item : Type} (b : ASTBehavior Item)
    (maxSessions : Nat) (items : List Item) :
    Except String (List ItemResult) :=
  let skippedRs := (parValidate b items 0).1
  let valid := (parValidate b items 0).2
  if valid.isEmpty then Except.ok skippedRs
  else
    let n := min maxSessions valid.length
    if n = 0 then Except.error "integer modulo by zero"
    else
      Except.ok (runWorkers b items.length (distributeRR n valid) 0 skippedRs)

/-- Embedding of `ASTExecutor.execute` with a `ParallelExecutor`: as in the
sequential case, a raise from the item phase (here only the `maxSessions = 0`
division by zero) is handled by `_handle_execution_error`. The
`save_item_result` calls of the validation pass have already happened when
that raise occurs, so they remain in the trace of the error path. -/
def executePar {Item : Type} (b : ASTBehavior Item) (maxSessions : Nat)
    (items : List Item) : ASTResultM × List PEvent :=
  if items.isEmpty then (emptyItemsResult, [PEvent.createExec])
  else
    match parProcessItems b maxSessions items with
    | .ok rs =>
      let (res, st) := finalizeResult b items.length rs
      (res, PEvent.createExec ::
        (rs.map (fun r => PEvent.saveItem r.item_id r.status) ++
          [PEvent.updateExec st]))
    | .error e =>
      (executionErrorResult e, PEvent.createExec ::
        ((parValidate b items 0).1.map
            (fun r => PEvent.saveItem r.item_id r.status) ++
          [PEvent.updateExec "failed"]))

/-- Observable steps of `run_ast`'s `_run_sequential` / `_run_parallel`
before the executor starts: AST state mutations, the `prepare_items` call,
and the hand-off to the executor. -/
inductive RunnerEvent
  | setExecutionId
  | prepareItemsCall
  | setSessionId
  | executeInvoked
deriving DecidableEq, Repr

/-- The early failure result `_run_sequential` returns when `host is None`. -/
def hostMissingResult : ASTResultM :=
  { status := .failed,
    message := "Host session required for sequential execution",
    error := some "ValidationError: host cannot be None for sequential mode",
    itemResults := [], counts := none }

/-- The failure result returned when `username` or `password` is missing. -/
def missingCredentialsResult : ASTResultM :=
  { status := .failed,
    message := "Missing required parameters: username and password are required",
    error := some "ValidationError: username and password must be provided",
    itemResults := [], counts := none }

/-- Embedding of `_run_sequential`: the missing-host check comes first; then
`ast._execution_id` is assigned, `ast.prepare_items(**kwargs)` is called and
`ast._session_id` is assigned, and only then are the credentials checked
(`not username or not password`; a missing or empty string is falsy). -/
def runSequential {Item : Type} (b : ASTBehavior Item) (hostAttached : Bool)
    (username password : String) (items : List Item) :
    ASTResultM × List RunnerEvent :=
  if ¬ hostAttached then (hostMissingResult, [])
  else if username = "" ∨ password = "" then
    (missingCredentialsResult,
     [RunnerEvent.setExecutionId, RunnerEvent.prepareItemsCall,
      RunnerEvent.setSessionId])
  else
    ((executeSeq b true items).1,
     [RunnerEvent.setExecutionId, RunnerEvent.prepareItemsCall,
      RunnerEvent.setSessionId, RunnerEvent.executeInvoked])

/-- Embedding of `_run_parallel`: same shape as `_run_sequential` but with no
host requirement. -/
def runParallel {Item : Type} (b : ASTBehavior Item) (maxSessions : Nat)
    (username password : String) (items : List Item) :
    ASTResultM × List RunnerEvent :=
  if username = "" ∨ password = "" then
    (missingCredentialsResult,
     [RunnerEvent.setExecutionId, RunnerEvent.prepareItemsCall,
      RunnerEvent.setSessionId])
  else
    ((executePar b maxSessions items).1,
     [RunnerEvent.setExecutionId, RunnerEvent.prepareItemsCall,
      RunnerEvent.setSessionId, RunnerEvent.executeInvoked])

/-- Shared pause/resume/cancel state of an AST instance (`base.py`):
`_is_paused`, the `threading.Event` pause gate, and `_cancelled`. -/
structure PauseState where
  isPausedFlag : Bool
  eventSet : Bool
  cancelled : Bool
deriving DecidableEq, Repr

/-- Fresh AST state: gate set (not paused), not cancelled. -/
def initPauseState : PauseState := ⟨false, true, false⟩

/-- Embedding of `AST.pause`. -/
def astPause (s : PauseState) : PauseState :=
  if s.isPausedFlag then s
  else { s with isPausedFlag := true, eventSet := false }

/-- Embedding of `AST.resume`. -/
def astResume (s : PauseState) : PauseState :=
  if s.isPausedFlag then { s with isPausedFlag := false, eventSet := true }
  else s

/-- Embedding of `AST.cancel`: set `_cancelled` and set the pause event to
unblock any waiter. -/
def astCancel (s : PauseState) : PauseState :=
  { s with cancelled := true, eventSet := true }

/-- One attempt of `AST.wait_if_paused` against the current state:
`some false` — returns false immediately (already cancelled);
`some r` — `_pause_event.wait` completes at once and `not _cancelled = r`;
`none` — the caller blocks on the cleared pause gate. -/
def waitIfPausedStep (s : PauseState) : Option Bool :=
  if s.cancelled then some false
  else if s.eventSet then some (!s.cancelled)
  else none

/-- Observable host surface consumed by `AST.authenticate`. -/
structure HostM where
  screenContains : String → Bool
  fillOk : String → Bool
  waitForText : String → Bool

/-- Input actions `AST.authenticate` can perform on the emulator. -/
inductive HostAction
  | fillField (label value : String)
  | enter
deriving DecidableEq, Repr

/-- Embedding of the default `AST.authenticate` in `base.py`, returning the
`(success, error)` pair together with the emulator input actions performed.
The first loop returns `(True, "")` with no input as soon as one expected
post-login keyword is on screen; otherwise the login fields are filled,
ENTER is submitted, and the expected keywords are awaited. -/
def authenticateM (h : HostM) (user password : String)
    (expectedKeywords : List String) (application group : String) :
    (Bool × String) × List HostAction :=
  match expectedKeywords.find? h.screenContains with
  | some _ => ((true, ""), [])
  | none =>
    if ¬ h.fillOk "Userid" then
      ((false, "Failed to find Userid field"), [])
    else
      let acts1 := [HostAction.fillField "Userid" user]
      if ¬ h.fillOk "Password" then
        ((false, "Failed to find Password field"), acts1)
      else
        let acts2 := acts1 ++ [HostAction.fillField "Password" password]
        let acts3 := acts2 ++
          (if application ≠ "" && h.fillOk "Application" then
            [HostAction.fillField "Application" application] else [])
        let acts4 := acts3 ++
          (if group ≠ "" && h.fillOk "Group" then
            [HostAction.fillField "Group" group] else [])
        let acts5 := acts4 ++ [HostAction.enter]
        if expectedKeywords.isEmpty then ((true, ""), acts5)
        else
          match expectedKeywords.find? h.waitForText with
          | some _ => ((true, ""), acts5)
          | none =>
            ((false,
              "Authentication may have failed - expected keywords not found"),
             acts5)

/-- Whether an execution-record status string is terminal. -/
def terminalStatusStr (s : String) : Bool :=
  s = "success" || s = "failed" || s = "cancelled"

/-- A happy-path behaviour over string items, used for concrete runs. -/
def happyB : ASTBehavior String where
  getItemId := fun s => s
  validate := fun _ => true
  authOutcome := (true, "")
  proc := fun _ _ _ => .ok
  waitIfPaused := fun _ => true
  cancelAt := fun _ _ => false
  isCancelledFinal := false
  logoffOutcome := .ok
  workerFate := fun _ => .ok

/-- The valid items (paired with 1-based original indices) of a parallel run,
the local `valid_items` of `ParallelExecutor._process_items`. -/
def validItems {Item : Type} (b : ASTBehavior Item) (items : List Item) :
    List (Item × Nat) :=
  (parValidate b items 0).2

/-- The local `num_sessions = min(self.max_sessions, len(valid_items))`. -/
def numSessions {Item : Type} (b : ASTBehavior Item) (maxSessions : Nat)
    (items : List Item) : Nat :=
  min maxSessions (validItems b items).length

/-- The local `batches` of `ParallelExecutor._process_items`. -/
def parBatches {Item : Type} (b : ASTBehavior Item) (maxSessions : Nat)
    (items : List Item) : List (List (Item × Nat)) :=
  distributeRR (numSessions b maxSessions items) (validItems b items)

/-- A behaviour whose authentication fails. -/
def authFailB : ASTBehavior String :=
  { happyB with authOutcome := (false, "bad credentials") }

/-- A behaviour whose every parallel worker crashes at session setup. -/
def crashB : ASTBehavior String :=
  { happyB with workerFate := fun _ => WorkerFate.crashAtSetup "boom" }

/-- A behaviour in which all items map to the same item id and every worker
except worker 0 crashes at session setup. -/
def dupIdB : ASTBehavior String :=
  { happyB with
    getItemId := fun _ => "X",
    workerFate := fun w =>
      if w = 0 then WorkerFate.ok else WorkerFate.crashAtSetup "boom" }

/-- A behaviour cancelled after one item: the second sequential
`wait_if_paused` call returns false, workers observe `is_cancelled` from
their second batch item on, and finalisation sees the cancelled flag. -/
def cancelAfterOneB : ASTBehavior String :=
  { happyB with
    waitIfPaused := fun i => decide (i < 1),
    cancelAt := fun _ p => decide (1 ≤ p),
    isCancelledFinal := true }

/-- A host oracle already sitting on the expected post-login screen. -/
def readyHost : HostM where
  screenContains := fun s => s = "MAIN MENU"
  fillOk := fun _ => true
  waitForText := fun _ => true

/-! ### Helper lemmas -/

/-- A `save_item_result` event is never an `update_execution_record` call. -/
theorem filter_isUpdate_saveItems (rs : List ItemResult) :
    (rs.map (fun r => PEvent.saveItem r.item_id r.status)).filter
      PEvent.isUpdate = [] := by
  induction rs with
  | nil => rfl
  | cons r rest ih => simp [PEvent.isUpdate, ih]

/-- A `save_item_result` event is never a `create_execution_record` call. -/
theorem filter_isCreate_saveItems (rs : List ItemResult) :
    (rs.map (fun r => PEvent.saveItem r.item_id r.status)).filter
      PEvent.isCreate = [] := by
  induction rs with
  | nil => rfl
  | cons r rest ih => simp [PEvent.isCreate, ih]

/-- A `save_item_result` event is never a logoff attempt. -/
theorem filter_isLogoff_saveItems (rs : List ItemResult) :
    (rs.map (fun r => PEvent.saveItem r.item_id r.status)).filter
      PEvent.isLogoff = [] := by
  induction rs with
  | nil => rfl
  | cons r rest ih => simp [PEvent.isLogoff, ih]

/-- Status string written by `_finalize_result`. -/
theorem finalizeResult_snd {Item : Type} (b : ASTBehavior Item) (total : Nat)
    (rs : List ItemResult) :
    (finalizeResult b total rs).2
      = if b.isCancelledFinal then "cancelled" else "success" := by
  by_cases h : b.isCancelledFinal <;> simp [finalizeResult, h]

/-- Result status produced by `_finalize_result`. -/
theorem finalizeResult_status {Item : Type} (b : ASTBehavior Item) (total : Nat)
    (rs : List ItemResult) :
    (finalizeResult b total rs).1.status
      = if b.isCancelledFinal then ASTStatus.cancelled else ASTStatus.success := by
  by_cases h : b.isCancelledFinal <;> simp [finalizeResult, h]

/-- Item results recorded by `_finalize_result`. -/
theorem finalizeResult_itemResults {Item : Type} (b : ASTBehavior Item)
    (total : Nat) (rs : List ItemResult) :
    (finalizeResult b total rs).1.itemResults = rs := by
  by_cases h : b.isCancelledFinal <;> simp [finalizeResult, h]

/-- Counts recorded by `_finalize_result`. -/
theorem finalizeResult_counts {Item : Type} (b : ASTBehavior Item)
    (total : Nat) (rs : List ItemResult) :
    (finalizeResult b total rs).1.counts
      = some (countStatus .success rs, countStatus .failed rs,
          countStatus .skipped rs) := by
  by_cases h : b.isCancelledFinal <;> simp [finalizeResult, h]

/-- With the host attached and authentication succeeding, the sequential item
phase returns the loop's results. -/
theorem seqProcessItems_auth_ok {Item : Type} (b : ASTBehavior Item)
    (items : List Item) (hauth : b.authOutcome.1 = true) :
    seqProcessItems b true items
      = Except.ok (seqLoop b items.length items 0) := by
  simp [seqProcessItems, hauth]

/-- Unfolding of `executeSeq` when the item phase returns normally. -/
theorem executeSeq_ok {Item : Type} (b : ASTBehavior Item) (hostAttached : Bool)
    (items : List Item) (rs : List ItemResult)
    (hne : items.isEmpty = false)
    (hok : seqProcessItems b hostAttached items = Except.ok rs) :
    executeSeq b hostAttached items
      = ((finalizeResult b items.length rs).1,
         PEvent.createExec ::
           (rs.map (fun r => PEvent.saveItem r.item_id r.status) ++
             [PEvent.logoffAttempt b.logoffOutcome,
              PEvent.updateExec (finalizeResult b items.length rs).2])) := by
  unfold executeSeq
  rw [hne, hok]
  rfl

/-- Unfolding of `executeSeq` when the item phase raises. -/
theorem executeSeq_error {Item : Type} (b : ASTBehavior Item)
    (hostAttached : Bool) (items : List Item) (e : String)
    (hne : items.isEmpty = false)
    (herr : seqProcessItems b hostAttached items = Except.error e) :
    executeSeq b hostAttached items
      = (executionErrorResult e,
         [PEvent.createExec, PEvent.updateExec "failed"]) := by
  unfold executeSeq
  rw [hne, herr]
  rfl

/-- Unfolding of `executePar` when the item phase returns normally. -/
theorem executePar_ok {Item : Type} (b : ASTBehavior Item) (maxSessions : Nat)
    (items : List Item) (rs : List ItemResult)
    (hne : items.isEmpty = false)
    (hok : parProcessItems b maxSessions items = Except.ok rs) :
    executePar b maxSessions items
      = ((finalizeResult b items.length rs).1,
         PEvent.createExec ::
           (rs.map (fun r => PEvent.saveItem r.item_id r.status) ++
             [PEvent.updateExec (finalizeResult b items.length rs).2])) := by
  unfold executePar
  rw [hne, hok]
  rfl

/-- Unfolding of `executePar` when the item phase raises (division by zero
in the distribution loop). -/
theorem executePar_error {Item : Type} (b : ASTBehavior Item)
    (maxSessions : Nat) (items : List Item) (e : String)
    (hne : items.isEmpty = false)
    (herr : parProcessItems b maxSessions items = Except.error e) :
    executePar b maxSessions items
      = (executionErrorResult e,
         PEvent.createExec ::
           ((parValidate b items 0).1.map
               (fun r => PEvent.saveItem r.item_id r.status) ++
             [PEvent.updateExec "failed"])) := by
  unfold executePar
  rw [hne, herr]
  rfl

/-- With at least one session allowed, the parallel item phase never raises:
either no valid item remains, or `num_sessions = min(maxSessions, |valid|)`
is positive and the distribution loop runs. -/
theorem parProcessItems_ok_of_pos {Item : Type} (b : ASTBehavior Item)
    (maxSessions : Nat) (items : List Item) (hms : 0 < maxSessions) :
    ∃ rs, parProcessItems b maxSessions items = Except.ok rs := by
  unfold parProcessItems
  cases hve : (parValidate b items 0).2.isEmpty with
  | true => exact ⟨(parValidate b items 0).1, by simp [hve]⟩
  | false =>
    have hlen : 0 < (parValidate b items 0).2.length := by
      cases hv : (parValidate b items 0).2 with
      | nil => rw [hv] at hve; simp at hve
      | cons x xs => simp [hv]
    have hn : ¬ (min maxSessions (parValidate b items 0).2.length = 0) := by
      omega
    exact ⟨runWorkers b items.length
        (distributeRR (min maxSessions (parValidate b items 0).2.length)
          (parValidate b items 0).2) 0 (parValidate b items 0).1,
      by simp [hve, hn]⟩

/-- On an all-valid, never-cancelled, all-ok run the sequential loop produces
one `success` result per item, in input order. -/
theorem seqLoop_all_success {Item : Type} (b : ASTBehavior Item) (total : Nat)
    (hw : ∀ i, b.waitIfPaused i = true) :
    ∀ (items : List Item) (idx : Nat),
      (∀ item ∈ items, b.validate item = true) →
      (∀ item ∈ items, ∀ n m, b.proc item n m = ProcOutcome.ok) →
      seqLoop b total items idx
        = items.map (fun it => ⟨b.getItemId it, ItemStatus.success, none⟩) := by
  intro items
  induction items with
  | nil => intro idx _ _; rfl
  | cons x rest ih =>
    intro idx hv hp
    have hvx : b.validate x = true := hv x (List.mem_cons_self x rest)
    have hpx := hp x (List.mem_cons_self x rest)
    have ht := ih (idx + 1) (fun i hi => hv i (List.mem_cons_of_mem x hi))
      (fun i hi => hp i (List.mem_cons_of_mem x hi))
    simp [seqLoop, hw idx, hvx, processSingleItemNoAuth,
      hpx (idx + 1) total, ht]

/-- Counting statuses over a list of results that all share one status. -/
theorem countStatus_map_const {Item : Type} (getId : Item → String)
    (s st : ItemStatus) (e : Option String) (items : List Item) :
    countStatus s (items.map (fun it => ⟨getId it, st, e⟩))
      = if st = s then items.length else 0 := by
  induction items with
  | nil => simp [countStatus]
  | cons x rest ih =>
    by_cases h : st = s
    · simp [countStatus, List.filter_cons, h] at ih ⊢
      omega
    · simp [countStatus, List.filter_cons, h, ih]

/-! ### C1 — sequential happy path -/

/-- C1: for every sequential run with an attached emulator in which
authentication succeeds, every item is valid, `process_single_item` returns
ok for every item, and no cancellation occurs, `execute` returns a result
with status `success`, `successCount = |items|`, `failedCount = 0`,
`skippedCount = 0`, and exactly one `ItemResult` per item in input order. -/
theorem c1_sequential_happy_path {Item : Type} (b : ASTBehavior Item)
    (items : List Item)
    (hne : items ≠ [])
    (hauth : b.authOutcome.1 = true)
    (hw : ∀ i, b.waitIfPaused i = true)
    (hv : ∀ item ∈ items, b.validate item = true)
    (hp : ∀ item ∈ items, ∀ n m, b.proc item n m = ProcOutcome.ok)
    (hc : b.isCancelledFinal = false) :
    (executeSeq b true items).1.status = ASTStatus.success ∧
    (executeSeq b true items).1.itemResults.map ItemResult.item_id
      = items.map b.getItemId ∧
    (executeSeq b true items).1.itemResults.length = items.length ∧
    (executeSeq b true items).1.counts = some (items.length, 0, 0) := by
  have hemp : items.isEmpty = false := by
    cases items with
    | nil => exact absurd rfl hne
    | cons x xs => rfl
  have hloop := seqLoop_all_success b items.length hw items 0 hv hp
  have hok := seqProcessItems_auth_ok b items hauth
  rw [executeSeq_ok b true items _ hemp hok]
  refine ⟨?_, ?_, ?_, ?_⟩
  · rw [finalizeResult_status, hc]; rfl
  · rw [finalizeResult_itemResults, hloop, List.map_map]; rfl
  · rw [finalizeResult_itemResults, hloop, List.length_map]
  · rw [finalizeResult_counts, hloop, countStatus_map_const,
      countStatus_map_const, countStatus_map_const]
    simp

/-- C1 witness: the spec's concrete scenario, three valid items all
processed successfully. -/
theorem c1_witness :
    (executeSeq happyB true ["000000001", "000000002", "000000003"]).1.status
      = ASTStatus.success ∧
    (executeSeq happyB true
        ["000000001", "000000002", "000000003"]).1.itemResults.map
          ItemResult.item_id
      = ["000000001", "000000002", "000000003"].map happyB.getItemId ∧
    (executeSeq happyB true
        ["000000001", "000000002", "000000003"]).1.itemResults.length
      = ["000000001", "000000002", "000000003"].length ∧
    (executeSeq happyB true ["000000001", "000000002", "000000003"]).1.counts
      = some (["000000001", "000000002", "000000003"].length, 0, 0) :=
  c1_sequential_happy_path happyB ["000000001", "000000002", "000000003"]
    (by decide) rfl (fun _ => rfl) (fun _ _ => rfl) (fun _ _ _ _ => rfl) rfl

/-! ### C7 — empty item list -/

/-- C7 counterexample: on an empty item list the run succeeds with no item
records but also writes no terminal execution record — the trace carries no
`update_execution_record` call at all, refuting the claim's "writes a
terminal execution record". -/
theorem c7_counterexample :
    (executeSeq happyB true ([] : List String)).1.status = ASTStatus.success ∧
    ((executeSeq happyB true ([] : List String)).2.filter PEvent.isUpdate)
      = [] := by decide

/-- C7 as amended: if the item list is empty, either executor returns a
result with status `success`, message "No items to process" and an empty
`item_results` list, and its trace is exactly the initial execution record —
zero item records and zero terminal execution-record updates. -/
theorem c7_empty_items_amended {Item : Type} (b : ASTBehavior Item)
    (hostAttached : Bool) (maxSessions : Nat) :
    executeSeq b hostAttached ([] : List Item)
      = (emptyItemsResult, [PEvent.createExec]) ∧
    executePar b maxSessions ([] : List Item)
      = (emptyItemsResult, [PEvent.createExec]) :=
  ⟨rfl, rfl⟩

/-! ### C8 — authenticate is idempotent past login -/

/-- C8: if some expected post-login keyword is already on the screen, the
default `authenticate` returns `(True, "")` and performs no emulator input —
no field fills, no ENTER — so a second call after a successful login is a
no-op that still reports ok. -/
theorem c8_authenticate_idempotent (h : HostM) (user password : String)
    (kws : List String) (application group : String) (k : String)
    (hk : k ∈ kws) (hs : h.screenContains k = true) :
    authenticateM h user password kws application group = ((true, ""), []) := by
  have hsome : (kws.find? h.screenContains).isSome :=
    List.find?_isSome.2 ⟨k, hk, hs⟩
  unfold authenticateM
  cases hfind : kws.find? h.screenContains with
  | none => rw [hfind] at hsome; simp at hsome
  | some w => rfl

/-- C8 witness: a host already showing "MAIN MENU". -/
theorem c8_witness :
    authenticateM readyHost "user1" "pw" ["MAIN MENU"] "" ""
      = ((true, ""), []) :=
  c8_authenticate_idempotent readyHost "user1" "pw" ["MAIN MENU"] "" ""
    "MAIN MENU" (by decide) (by decide)

/-! ### C3 — missing credentials -/

/-- C3 counterexample: with an attached host and an empty username the run
does return a `failed` result, but `prepare_items` has already been invoked
and the AST's execution id has already been mutated — refuting "no
prepare_items fetch ... and no mutation of AST state". -/
theorem c3_counterexample :
    (runSequential happyB true "" "secret" ["x"]).1.status
      = ASTStatus.failed ∧
    RunnerEvent.prepareItemsCall ∈ (runSequential happyB true "" "secret" ["x"]).2 ∧
    RunnerEvent.setExecutionId ∈ (runSequential happyB true "" "secret" ["x"]).2 := by
  decide

/-- C3 as amended: if `username` or `password` is missing (falsy), both
`_run_sequential` (with an attached host) and `_run_parallel` return a
`failed` ExecutionResult before any persistence write or emulator
interaction (the executor is never invoked) — but only after
`ast.prepare_items` has been called and the AST's `_execution_id` and
`_session_id` have been set. -/
theorem c3_missing_credentials_amended {Item : Type} (b : ASTBehavior Item)
    (username password : String) (items : List Item) (maxSessions : Nat)
    (h : username = "" ∨ password = "") :
    runSequential b true username password items
      = (missingCredentialsResult,
         [RunnerEvent.setExecutionId, RunnerEvent.prepareItemsCall,
          RunnerEvent.setSessionId]) ∧
    runParallel b maxSessions username password items
      = (missingCredentialsResult,
         [RunnerEvent.setExecutionId, RunnerEvent.prepareItemsCall,
          RunnerEvent.setSessionId]) := by
  constructor
  · unfold runSequential
    rw [if_neg (by simp), if_pos h]
  · unfold runParallel
    rw [if_pos h]

/-- C3 witness: concrete missing-username run. -/
theorem c3_witness :
    runSequential happyB true "" "pw" ["x"]
      = (missingCredentialsResult,
         [RunnerEvent.setExecutionId, RunnerEvent.prepareItemsCall,
          RunnerEvent.setSessionId]) ∧
    runParallel happyB 5 "" "pw" ["x"]
      = (missingCredentialsResult,
         [RunnerEvent.setExecutionId, RunnerEvent.prepareItemsCall,
          RunnerEvent.setSessionId]) :=
  c3_missing_credentials_amended happyB "" "pw" ["x"] 5 (Or.inl rfl)

/-! ### C4 — round-robin partition -/

/-- Unfolding of `rrLoop` on nil. -/
theorem rrLoop_nil {α : Type} (n i : Nat) (bs : List (List α)) :
    rrLoop n [] i bs = bs := rfl

/-- Unfolding of `rrLoop` on cons. -/
theorem rrLoop_cons {α : Type} (n i : Nat) (a : α) (rest : List α)
    (bs : List (List α)) :
    rrLoop n (a :: rest) i bs
      = rrLoop n rest (i + 1) (bs.set (i % n) (bs.getD (i % n) [] ++ [a])) :=
  rfl

/-- Unfolding of `selMod` on nil. -/
theorem selMod_nil {α : Type} (n j i : Nat) :
    selMod n j ([] : List α) i = [] := rfl

/-- Unfolding of `selMod` on cons. -/
theorem selMod_cons {α : Type} (n j i : Nat) (a : α) (rest : List α) :
    selMod n j (a :: rest) i
      = (if i % n = j then [a] else []) ++ selMod n j rest (i + 1) := rfl

/-- Reading a just-written bucket back. -/
theorem getD_set_self_list {α : Type} (bs : List (List α)) (j : Nat)
    (h : j < bs.length) (v : List α) : (bs.set j v).getD j [] = v := by
  simp [List.getD_eq_getElem?_getD, List.getElem?_set_self h]

/-- Reading an untouched bucket back. -/
theorem getD_set_ne_list {α : Type} (bs : List (List α)) (i j : Nat)
    (h : i ≠ j) (v : List α) : (bs.set i v).getD j [] = bs.getD j [] := by
  simp [List.getD_eq_getElem?_getD, List.getElem?_set_ne h]

/-- The distribution loop appends to bucket `j` exactly the elements whose
running index is congruent to `j` modulo `n`. -/
theorem rrLoop_getD {α : Type} (n : Nat) :
    ∀ (l : List α) (i : Nat) (bs : List (List α)), bs.length = n →
      ∀ j, j < n →
        (rrLoop n l i bs).getD j [] = bs.getD j [] ++ selMod n j l i := by
  intro l
  induction l with
  | nil => intro i bs hbs j hj; simp [rrLoop_nil, selMod_nil]
  | cons a rest ih =>
    intro i bs hbs j hj
    have hlen : (bs.set (i % n) (bs.getD (i % n) [] ++ [a])).length = n := by
      simp [hbs]
    rw [rrLoop_cons, ih (i + 1) _ hlen j hj, selMod_cons]
    by_cases hij : i % n = j
    · rw [hij, getD_set_self_list _ _ (by rw [hbs]; exact hj) _]
      simp [hij, List.append_assoc]
    · rw [getD_set_ne_list _ _ _ hij _]
      simp [hij]

/-- `selMod` only depends on the start index modulo `n`. -/
theorem selMod_shift {α : Type} (n j : Nat) :
    ∀ (l : List α) (i : Nat), selMod n j l (i + n) = selMod n j l i := by
  intro l
  induction l with
  | nil => intro i; rfl
  | cons a rest ih =>
    intro i
    have h1 : (i + n) % n = i % n := Nat.add_mod_right i n
    have h2 : i + n + 1 = (i + 1) + n := by omega
    rw [selMod_cons, selMod_cons, h1, h2, ih]

/-- Once the start index has passed `j`, the selection restarts at the next
block boundary. -/
theorem selMod_restart {α : Type} (n j : Nat) :
    ∀ (l : List α) (i : Nat), j < i → i ≤ n →
      selMod n j l i = selMod n j (l.drop (n - i)) 0 := by
  intro l
  induction l with
  | nil => intro i hji hin; simp [selMod_nil]
  | cons a rest ih =>
    intro i hji hin
    rcases Nat.lt_or_ge i n with hi | hi
    · have him : i % n = i := Nat.mod_eq_of_lt hi
      have hne : i % n ≠ j := by omega
      have hd : (a :: rest).drop (n - i) = rest.drop (n - (i + 1)) := by
        have h3 : n - i = (n - (i + 1)) + 1 := by omega
        rw [h3, List.drop_succ_cons]
      rw [selMod_cons, if_neg hne, hd,
        ih (i + 1) (Nat.lt_succ_of_lt hji) hi]
      rfl
    · have hieq : i = n := le_antisymm hin hi
      have hd : (a :: rest).drop (n - n) = a :: rest := by simp
      rw [selMod_cons, hieq, Nat.mod_self, hd, selMod_cons, Nat.zero_mod]
      have hsh : selMod n j rest (n + 1) = selMod n j rest 1 := by
        have h4 : n + 1 = 1 + n := by omega
        rw [h4]
        exact selMod_shift n j rest 1
      rw [hsh]

/-- Peeling one block of `n` off the selection: starting at `i ≤ j`, the
first selected element is the one at offset `j - i`, and the tail of the
selection restarts on the list with the current block dropped. -/
theorem selMod_peel_aux {α : Type} (n j : Nat) (hjn : j < n) :
    ∀ (l : List α) (i : Nat), i ≤ j →
      selMod n j l i
        = (l[j - i]?).toList ++ selMod n j (l.drop (n - i)) 0 := by
  intro l
  induction l with
  | nil => intro i hij; simp [selMod_nil]
  | cons a rest ih =>
    intro i hij
    have hi : i < n := lt_of_le_of_lt hij hjn
    have him : i % n = i := Nat.mod_eq_of_lt hi
    have hd : (a :: rest).drop (n - i) = rest.drop (n - (i + 1)) := by
      have h3 : n - i = (n - (i + 1)) + 1 := by omega
      rw [h3, List.drop_succ_cons]
    rcases Nat.eq_or_lt_of_le hij with heq | hlt
    · subst heq
      rw [selMod_cons, him, if_pos rfl,
        selMod_restart n i rest (i + 1) (Nat.lt_succ_self i) hi, hd]
      simp
    · have hne : i % n ≠ j := by omega
      rw [selMod_cons, if_neg hne, ih (i + 1) hlt, hd]
      have h5 : j - i = (j - (i + 1)) + 1 := by omega
      rw [h5]
      simp

/-- Peeling one block of `n` off the selection, from the start. -/
theorem selMod_peel {α : Type} (n j : Nat) (hjn : j < n) (l : List α) :
    selMod n j l 0 = (l[j]?).toList ++ selMod n j (l.drop n) 0 := by
  simpa using selMod_peel_aux n j hjn l 0 (Nat.zero_le j)

/-- The `m`-th element of batch `j` is the element of the distributed list at
position `j + m * n`. -/
theorem selMod_getElem? {α : Type} (n j : Nat) (hjn : j < n) :
    ∀ (m : Nat) (l : List α), (selMod n j l 0)[m]? = l[j + m * n]? := by
  intro m
  induction m with
  | zero =>
    intro l
    rw [selMod_peel n j hjn]
    cases hj : l[j]? with
    | some a => simp [hj]
    | none =>
      have hlen : l.length ≤ j := List.getElem?_eq_none_iff.1 hj
      have hd : l.drop n = [] := List.drop_eq_nil_of_le (by omega)
      simp [hj, hd, selMod_nil]
  | succ m ih =>
    intro l
    rw [selMod_peel n j hjn]
    cases hj : l[j]? with
    | some a =>
      have h1 := ih (l.drop n)
      rw [List.getElem?_drop] at h1
      have harith : n + (j + m * n) = j + (m + 1) * n := by ring
      rw [harith] at h1
      simpa [hj] using h1
    | none =>
      have hlen : l.length ≤ j := List.getElem?_eq_none_iff.1 hj
      have hd : l.drop n = [] := List.drop_eq_nil_of_le (by omega)
      have hnone : l[j + (m + 1) * n]? = none :=
        List.getElem?_eq_none (le_trans hlen (Nat.le_add_right _ _))
      simp [hj, hd, selMod_nil, hnone]

/-- Any two round-robin batches differ in size by at most one. -/
theorem selMod_length_balanced {α : Type} (n j k : Nat)
    (hjn : j < n) (hkn : k < n) (l : List α) :
    (selMod n j l 0).length ≤ (selMod n k l 0).length + 1 := by
  by_contra hcon
  push_neg at hcon
  have e1 := selMod_getElem? n j hjn ((selMod n k l 0).length + 1) l
  have e2 := selMod_getElem? n k hkn (selMod n k l 0).length l
  have h2 : l[k + (selMod n k l 0).length * n]? = none := by
    rw [← e2]
    exact List.getElem?_eq_none (le_refl _)
  have h3 : l.length ≤ k + (selMod n k l 0).length * n :=
    List.getElem?_eq_none_iff.1 h2
  have h5 : j + ((selMod n k l 0).length + 1) * n < l.length := by
    by_contra h6
    push_neg at h6
    have h7 : (selMod n j l 0)[(selMod n k l 0).length + 1]? = none := by
      rw [e1]
      exact List.getElem?_eq_none h6
    have h8 := List.getElem?_eq_none_iff.1 h7
    omega
  have h9 : ((selMod n k l 0).length + 1) * n
      = (selMod n k l 0).length * n + n := by ring
  rw [h9] at h5
  set A := (selMod n k l 0).length * n with hA
  omega

/-- The batches produced by the source's distribution loop are exactly the
modular selections. -/
theorem distributeRR_getD {α : Type} (n : Nat) (l : List α)
    (j : Nat) (hj : j < n) :
    (distributeRR n l).getD j [] = selMod n j l 0 := by
  have h := rrLoop_getD n l 0 (List.replicate n []) (by simp) j hj
  rw [distributeRR, h]
  simp [List.getD_eq_getElem?_getD, List.getElem?_replicate_of_lt hj]

/-- There are exactly `n` batches. -/
theorem distributeRR_length {α : Type} (n : Nat) (l : List α) :
    (distributeRR n l).length = n := by
  suffices h : ∀ (l' : List α) (i : Nat) (bs : List (List α)),
      (rrLoop n l' i bs).length = bs.length by
    simp [distributeRR, h]
  intro l'
  induction l' with
  | nil => intro i bs; rfl
  | cons a rest ih => intro i bs; rw [rrLoop_cons, ih]; simp

/-- C4: in the parallel executor, with `valid` the validated items in
original order and `N = min(maxSessions, |valid|)`, batch `j` receives
exactly the valid items at positions `j, j + N, j + 2N, ...` of `valid`
(its `m`-th element is `valid[j + m·N]`, which also preserves within-batch
original order), and any two batch sizes differ by at most 1. -/
theorem c4_round_robin_partition {Item : Type} (b : ASTBehavior Item)
    (maxSessions : Nat) (items : List Item) (j : Nat)
    (hj : j < numSessions b maxSessions items) :
    (∀ m, ((parBatches b maxSessions items).getD j [])[m]?
        = (validItems b items)[j + m * numSessions b maxSessions items]?) ∧
    (∀ k, k < numSessions b maxSessions items →
      ((parBatches b maxSessions items).getD j []).length
        ≤ ((parBatches b maxSessions items).getD k []).length + 1) := by
  constructor
  · intro m
    rw [parBatches, distributeRR_getD _ _ j hj]
    exact selMod_getElem? _ j hj m _
  · intro k hk
    rw [parBatches, distributeRR_getD _ _ j hj, distributeRR_getD _ _ k hk]
    exact selMod_length_balanced _ j k hj hk _

/-- C4 witness: the spec's 7-items / 3-workers scenario; batch 0's second
element is valid item 4 (position 0 + 1·3), and batch sizes are balanced. -/
theorem c4_witness :
    (((parBatches happyB 3 ["1", "2", "3", "4", "5", "6", "7"]).getD 0 [])[1]?
        = (validItems happyB ["1", "2", "3", "4", "5", "6", "7"])[0 + 1 *
            numSessions happyB 3 ["1", "2", "3", "4", "5", "6", "7"]]?) ∧
    ((parBatches happyB 3 ["1", "2", "3", "4", "5", "6", "7"]).getD 0 []).length
      ≤ ((parBatches happyB 3 ["1", "2", "3", "4", "5", "6", "7"]).getD 1
          []).length + 1 :=
  ⟨(c4_round_robin_partition happyB 3 ["1", "2", "3", "4", "5", "6", "7"] 0
      (by decide)).1 1,
   (c4_round_robin_partition happyB 3 ["1", "2", "3", "4", "5", "6", "7"] 0
      (by decide)).2 1 (by decide)⟩

/-! ### C5 / C10 — parallel worker failure containment -/

/-- Unfolding of the worker loop on cons. -/
theorem runWorkerLoop_cons {Item : Type} (b : ASTBehavior Item)
    (w total : Nat) (item : Item) (oi : Nat) (rest : List (Item × Nat))
    (pos : Nat) (col : List ItemResult) :
    runWorkerLoop b w total ((item, oi) :: rest) pos col
      = if b.cancelAt w pos then col
        else runWorkerLoop b w total rest (pos + 1)
          (col ++ [processSingleItemNoAuth b item oi total]) := rfl

/-- Unfolding of the truncated worker loop at fuel zero. -/
theorem runWorkerLoopN_zero {Item : Type} (b : ASTBehavior Item)
    (w total : Nat) (batch : List (Item × Nat)) (pos : Nat)
    (col : List ItemResult) :
    runWorkerLoopN b w total batch pos 0 col = col := by
  cases batch with
  | nil => rfl
  | cons q rest => cases q; rfl

/-- Unfolding of the truncated worker loop on cons with fuel left. -/
theorem runWorkerLoopN_cons_succ {Item : Type} (b : ASTBehavior Item)
    (w total : Nat) (item : Item) (oi : Nat) (rest : List (Item × Nat))
    (pos k : Nat) (col : List ItemResult) :
    runWorkerLoopN b w total ((item, oi) :: rest) pos (k + 1) col
      = if b.cancelAt w pos then col
        else runWorkerLoopN b w total rest (pos + 1) k
          (col ++ [processSingleItemNoAuth b item oi total]) := rfl

/-- Unfolding of the crash handler on nil. -/
theorem crashHandler_nil {Item : Type} (b : ASTBehavior Item) (msg : String)
    (col : List ItemResult) : crashHandler b msg [] col = col := rfl

/-- Unfolding of the crash handler on cons. -/
theorem crashHandler_cons {Item : Type} (b : ASTBehavior Item) (msg : String)
    (item : Item) (oi : Nat) (rest : List (Item × Nat))
    (col : List ItemResult) :
    crashHandler b msg ((item, oi) :: rest) col
      = if col.any (fun r => r.item_id = b.getItemId item) then
          crashHandler b msg rest col
        else
          crashHandler b msg rest (col ++
            [⟨b.getItemId item, ItemStatus.failed,
              some ("Session failed: " ++ msg)⟩]) := rfl

/-- The worker loop only appends, and appends only processed batch items. -/
theorem runWorkerLoop_decomp {Item : Type} (b : ASTBehavior Item)
    (w total : Nat) :
    ∀ (batch : List (Item × Nat)) (pos : Nat) (col : List ItemResult),
      ∃ s, runWorkerLoop b w total batch pos col = col ++ s ∧
        ∀ r ∈ s, ∃ p ∈ batch, r = processSingleItemNoAuth b p.1 p.2 total := by
  intro batch
  induction batch with
  | nil => intro pos col; exact ⟨[], by simp [runWorkerLoop], by simp⟩
  | cons q rest ih =>
    intro pos col
    obtain ⟨item, oi⟩ := q
    by_cases hc : b.cancelAt w pos
    · exact ⟨[], by simp [runWorkerLoop_cons, hc], by simp⟩
    · obtain ⟨s, hs, hmem⟩ :=
        ih (pos + 1) (col ++ [processSingleItemNoAuth b item oi total])
      refine ⟨processSingleItemNoAuth b item oi total :: s, ?_, ?_⟩
      · rw [runWorkerLoop_cons, if_neg hc, hs]
        simp
      · intro r hr
        rcases List.mem_cons.1 hr with h | h
        · exact ⟨(item, oi), List.mem_cons_self _ _, by rw [h]⟩
        · obtain ⟨p, hp, he⟩ := hmem r h
          exact ⟨p, List.mem_cons_of_mem _ hp, he⟩

/-- The truncated worker loop only appends, and appends only processed batch
items. -/
theorem runWorkerLoopN_decomp {Item : Type} (b : ASTBehavior Item)
    (w total : Nat) :
    ∀ (batch : List (Item × Nat)) (pos k : Nat) (col : List ItemResult),
      ∃ s, runWorkerLoopN b w total batch pos k col = col ++ s ∧
        ∀ r ∈ s, ∃ p ∈ batch, r = processSingleItemNoAuth b p.1 p.2 total := by
  intro batch
  induction batch with
  | nil =>
    intro pos k col
    refine ⟨[], ?_, by simp⟩
    cases k <;> simp [runWorkerLoopN]
  | cons q rest ih =>
    intro pos k col
    obtain ⟨item, oi⟩ := q
    cases k with
    | zero => exact ⟨[], by simp [runWorkerLoopN_zero], by simp⟩
    | succ k' =>
      by_cases hc : b.cancelAt w pos
      · exact ⟨[], by simp [runWorkerLoopN_cons_succ, hc], by simp⟩
      · obtain ⟨s, hs, hmem⟩ :=
          ih (pos + 1) k' (col ++ [processSingleItemNoAuth b item oi total])
        refine ⟨processSingleItemNoAuth b item oi total :: s, ?_, ?_⟩
        · rw [runWorkerLoopN_cons_succ, if_neg hc, hs]
          simp
        · intro r hr
          rcases List.mem_cons.1 hr with h | h
          · exact ⟨(item, oi), List.mem_cons_self _ _, by rw [h]⟩
          · obtain ⟨p, hp, he⟩ := hmem r h
            exact ⟨p, List.mem_cons_of_mem _ hp, he⟩

/-- The crash handler only appends, and appends only `failed` results with
the session-failure error, for ids drawn from its batch. -/
theorem crashHandler_decomp {Item : Type} (b : ASTBehavior Item)
    (msg : String) :
    ∀ (batch : List (Item × Nat)) (col : List ItemResult),
      ∃ s, crashHandler b msg batch col = col ++ s ∧
        ∀ r ∈ s, r.status = ItemStatus.failed ∧
          r.error = some ("Session failed: " ++ msg) ∧
          r.item_id ∈ batch.map (fun p => b.getItemId p.1) := by
  intro batch
  induction batch with
  | nil => intro col; exact ⟨[], by simp [crashHandler_nil], by simp⟩
  | cons q rest ih =>
    intro col
    obtain ⟨item, oi⟩ := q
    by_cases hc : col.any (fun r => r.item_id = b.getItemId item) = true
    · obtain ⟨s, hs, hmem⟩ := ih col
      refine ⟨s, ?_, ?_⟩
      · rw [crashHandler_cons, if_pos hc, hs]
      · intro r hr
        obtain ⟨h1, h2, h3⟩ := hmem r hr
        exact ⟨h1, h2, List.mem_cons_of_mem _ h3⟩
    · obtain ⟨s, hs, hmem⟩ := ih (col ++
        [⟨b.getItemId item, ItemStatus.failed,
          some ("Session failed: " ++ msg)⟩])
      refine ⟨⟨b.getItemId item, ItemStatus.failed,
        some ("Session failed: " ++ msg)⟩ :: s, ?_, ?_⟩
      · rw [crashHandler_cons, if_neg hc, hs]
        simp
      · intro r hr
        rcases List.mem_cons.1 hr with h | h
        · subst h
          exact ⟨rfl, rfl, List.mem_cons_self _ _⟩
        · obtain ⟨h1, h2, h3⟩ := hmem r h
          exact ⟨h1, h2, List.mem_cons_of_mem _ h3⟩

/-- After the crash handler runs, every batch item's id is carried by some
collected result. -/
theorem crashHandler_covers {Item : Type} (b : ASTBehavior Item)
    (msg : String) :
    ∀ (batch : List (Item × Nat)) (col : List ItemResult) (p : Item × Nat),
      p ∈ batch →
      b.getItemId p.1
        ∈ (crashHandler b msg batch col).map ItemResult.item_id := by
  intro batch
  induction batch with
  | nil => intro col p hp; exact absurd hp (List.not_mem_nil p)
  | cons q rest ih =>
    intro col p hp
    obtain ⟨item, oi⟩ := q
    by_cases hc : col.any (fun r => r.item_id = b.getItemId item) = true
    · rw [crashHandler_cons, if_pos hc]
      rcases List.mem_cons.1 hp with h | h
      · subst h
        obtain ⟨r, hr, hid⟩ := List.any_eq_true.1 hc
        obtain ⟨s, hs, _⟩ := crashHandler_decomp b msg rest col
        rw [hs]
        exact List.mem_map.2 ⟨r, List.mem_append_left _ hr,
          of_decide_eq_true hid⟩
      · exact ih col p h
    · rw [crashHandler_cons, if_neg hc]
      rcases List.mem_cons.1 hp with h | h
      · subst h
        obtain ⟨s, hs, _⟩ := crashHandler_decomp b msg rest (col ++
          [⟨b.getItemId item, ItemStatus.failed,
            some ("Session failed: " ++ msg)⟩])
        rw [hs]
        refine List.mem_map.2 ⟨⟨b.getItemId item, ItemStatus.failed,
          some ("Session failed: " ++ msg)⟩, ?_, rfl⟩
        exact List.mem_append_left _
          (List.mem_append_right _ (List.mem_singleton.2 rfl))
      · exact ih _ p h

/-- A crashed worker's effect on the collector decomposes into the previous
contents followed by processed-or-synthesised results for its own batch. -/
theorem runWorker_decomp {Item : Type} (b : ASTBehavior Item) (w total : Nat)
    (batch : List (Item × Nat)) (col : List ItemResult) (msg : String)
    (hcrash : b.workerFate w = WorkerFate.crashAtSetup msg ∨
      ∃ k, b.workerFate w = WorkerFate.crashAfter k msg) :
    ∃ s, runWorker b w total batch col = col ++ s ∧
      ∀ r ∈ s, (∃ p ∈ batch, r = processSingleItemNoAuth b p.1 p.2 total) ∨
        (r.status = ItemStatus.failed ∧
          r.error = some ("Session failed: " ++ msg) ∧
          r.item_id ∈ batch.map (fun p => b.getItemId p.1)) := by
  rcases hcrash with hf | ⟨k, hf⟩
  · obtain ⟨s, hs, hmem⟩ := crashHandler_decomp b msg batch col
    refine ⟨s, ?_, fun r hr => Or.inr (hmem r hr)⟩
    simp only [runWorker, hf]
    exact hs
  · obtain ⟨s1, hs1, hmem1⟩ := runWorkerLoopN_decomp b w total batch 0 k col
    obtain ⟨s2, hs2, hmem2⟩ := crashHandler_decomp b msg batch (col ++ s1)
    refine ⟨s1 ++ s2, ?_, ?_⟩
    · simp only [runWorker, hf]
      rw [hs1, hs2, List.append_assoc]
    · intro r hr
      rcases List.mem_append.1 hr with h | h
      · exact Or.inl (hmem1 r h)
      · exact Or.inr (hmem2 r h)

/-- Any worker — healthy or crashed — only appends to the shared collector:
earlier results (other workers' items, validation skips) are untouched. -/
theorem runWorker_take {Item : Type} (b : ASTBehavior Item) (w total : Nat)
    (batch : List (Item × Nat)) (col : List ItemResult) :
    (runWorker b w total batch col).take col.length = col := by
  cases hf : b.workerFate w with
  | ok =>
    obtain ⟨s, hs, _⟩ := runWorkerLoop_decomp b w total batch 0 col
    simp only [runWorker, hf]
    rw [hs]
    exact List.take_left col s
  | crashAtSetup msg =>
    obtain ⟨s, hs, _⟩ := crashHandler_decomp b msg batch col
    simp only [runWorker, hf]
    rw [hs]
    exact List.take_left col s
  | crashAfter k msg =>
    obtain ⟨s1, hs1, _⟩ := runWorkerLoopN_decomp b w total batch 0 k col
    obtain ⟨s2, hs2, _⟩ := crashHandler_decomp b msg batch (col ++ s1)
    simp only [runWorker, hf]
    rw [hs1, hs2, List.append_assoc]
    exact List.take_left col (s1 ++ s2)

/-- With at least one session allowed, the parallel executor on a non-empty
item list always finalises: `cancelled` when the cancel flag is set,
`success` otherwise. -/
theorem executePar_status {Item : Type} (b : ASTBehavior Item)
    (maxSessions : Nat) (items : List Item) (hms : 0 < maxSessions)
    (hne : items ≠ []) :
    (executePar b maxSessions items).1.status
      = if b.isCancelledFinal then ASTStatus.cancelled else ASTStatus.success := by
  have hemp : items.isEmpty = false := by
    cases items with
    | nil => exact absurd rfl hne
    | cons x xs => rfl
  obtain ⟨rs, hok⟩ := parProcessItems_ok_of_pos b maxSessions items hms
  rw [executePar_ok b maxSessions items rs hemp hok]
  exact finalizeResult_status b items.length _

/-- With at least one session allowed, the parallel executor never reports a
`failed` execution status (with `maxSessions = 0` and a valid item the
division by zero in the distribution loop does mark the run failed). -/
theorem executePar_not_failed {Item : Type} (b : ASTBehavior Item)
    (maxSessions : Nat) (items : List Item) (hms : 0 < maxSessions) :
    (executePar b maxSessions items).1.status ≠ ASTStatus.failed := by
  cases items with
  | nil =>
    intro h
    exact absurd h (by simp [executePar, emptyItemsResult])
  | cons x xs =>
    rw [executePar_status b maxSessions (x :: xs) hms (by simp)]
    by_cases hc : b.isCancelledFinal <;> simp [hc]

/-- The division-by-zero path is live in the model: with `maxSessions = 0`
and a valid item, the run is recorded `failed` with the `ZeroDivisionError`
text, exactly as `_handle_execution_error` does in the source. -/
theorem executePar_zero_sessions_failed :
    (executePar happyB 0 ["A"]).1.status = ASTStatus.failed ∧
    (executePar happyB 0 ["A"]).1.error = some "integer modulo by zero" := by
  decide

/-- C5: if a parallel worker's session creation, authentication, or mid-batch
processing raises, then (a) the previously collected results — other
workers' items and validation skips — are untouched, (b) every item of that
worker's batch ends up with some recorded result id, (c) every result is
either pre-existing, genuinely processed before the crash, or a synthesised
`failed` result with error `"Session failed: <reason>"`, and (d) for any run
actually fielding workers (`maxSessions ≥ 1`, as a run with a crashed worker
presupposes) the overall execution is never marked `failed`: it finalises
`success`, or `cancelled` when the AST was cancelled. -/
theorem c5_worker_failure_containment {Item : Type} (b : ASTBehavior Item)
    (w total : Nat) (batch : List (Item × Nat)) (col : List ItemResult)
    (msg : String)
    (hcrash : b.workerFate w = WorkerFate.crashAtSetup msg ∨
      ∃ k, b.workerFate w = WorkerFate.crashAfter k msg) :
    ((runWorker b w total batch col).take col.length = col) ∧
    (∀ p ∈ batch, b.getItemId p.1
        ∈ (runWorker b w total batch col).map ItemResult.item_id) ∧
    (∀ r ∈ runWorker b w total batch col, r ∈ col ∨
      (∃ p ∈ batch, r = processSingleItemNoAuth b p.1 p.2 total) ∨
      (r.status = ItemStatus.failed ∧
        r.error = some ("Session failed: " ++ msg) ∧
        r.item_id ∈ batch.map (fun p => b.getItemId p.1))) ∧
    (∀ (maxSessions : Nat) (items : List Item), 0 < maxSessions →
      (executePar b maxSessions items).1.status ≠ ASTStatus.failed ∧
      (items ≠ [] → (executePar b maxSessions items).1.status
        = if b.isCancelledFinal then ASTStatus.cancelled
          else ASTStatus.success)) := by
  refine ⟨runWorker_take b w total batch col, ?_, ?_, ?_⟩
  · intro p hp
    rcases hcrash with hf | ⟨k, hf⟩
    · simp only [runWorker, hf]
      exact crashHandler_covers b msg batch col p hp
    · simp only [runWorker, hf]
      exact crashHandler_covers b msg batch _ p hp
  · intro r hr
    obtain ⟨s, hs, hmem⟩ := runWorker_decomp b w total batch col msg hcrash
    rw [hs] at hr
    rcases List.mem_append.1 hr with h | h
    · exact Or.inl h
    · rcases hmem r h with h1 | h1
      · exact Or.inr (Or.inl h1)
      · exact Or.inr (Or.inr h1)
  · intro maxSessions items hms
    exact ⟨executePar_not_failed b maxSessions items hms,
      fun hne => executePar_status b maxSessions items hms hne⟩

/-- C5 witness: a one-item batch whose worker crashes at setup, and a
concrete parallel run with every worker crashing. -/
theorem c5_witness :
    ((runWorker crashB 0 1 [("A", 1)] []).take 0 = []) ∧
    (crashB.getItemId (("A" : String), 1).1
        ∈ (runWorker crashB 0 1 [("A", 1)] []).map ItemResult.item_id) ∧
    ((executePar crashB 2 ["A"]).1.status ≠ ASTStatus.failed) ∧
    ((executePar crashB 2 ["A"]).1.status
      = if crashB.isCancelledFinal then ASTStatus.cancelled
        else ASTStatus.success) :=
  ⟨(c5_worker_failure_containment crashB 0 1 [("A", 1)] [] "boom"
      (Or.inl rfl)).1,
   (c5_worker_failure_containment crashB 0 1 [("A", 1)] [] "boom"
      (Or.inl rfl)).2.1 ("A", 1) (by decide),
   ((c5_worker_failure_containment crashB 0 1 [("A", 1)] [] "boom"
      (Or.inl rfl)).2.2.2 2 ["A"] (by decide)).1,
   ((c5_worker_failure_containment crashB 0 1 [("A", 1)] [] "boom"
      (Or.inl rfl)).2.2.2 2 ["A"] (by decide)).2 (by decide)⟩

/-- The crash handler appends nothing when every batch item's id is already
carried by a collected result. -/
theorem crashHandler_skips_recorded {Item : Type} (b : ASTBehavior Item)
    (msg : String) :
    ∀ (batch : List (Item × Nat)) (col : List ItemResult),
      (∀ p ∈ batch, col.any (fun r => r.item_id = b.getItemId p.1) = true) →
      crashHandler b msg batch col = col := by
  intro batch
  induction batch with
  | nil => intro col _; rfl
  | cons q rest ih =>
    intro col hall
    obtain ⟨item, oi⟩ := q
    have hc := hall (item, oi) (List.mem_cons_self _ _)
    rw [crashHandler_cons, if_pos hc]
    exact ih col (fun p hp => hall p (List.mem_cons_of_mem _ hp))

/-- C10: the crash handler synthesises a failed result for a batch item only
if no already-recorded result carries an equal item id (if every batch item's
id is already recorded, nothing is appended); consequently, when two items
share an id and a worker crashes, an item can finish with no ItemResult of
its own — concretely, a run of two items both mapping to id "X" on two
workers, the second of which crashes, yields a single ItemResult for two
items. -/
theorem c10_duplicate_id_hazard {Item : Type} (b : ASTBehavior Item)
    (msg : String) (batch : List (Item × Nat)) (col : List ItemResult)
    (hall : ∀ p ∈ batch, col.any (fun r => r.item_id = b.getItemId p.1) = true) :
    crashHandler b msg batch col = col ∧
    parProcessItems dupIdB 2 ["A", "B"]
      = Except.ok [⟨"X", ItemStatus.success, none⟩] ∧
    (["A", "B"] : List String).length = 2 :=
  ⟨crashHandler_skips_recorded b msg batch col hall, by rfl, by decide⟩

/-- C10 witness: a crashed worker whose only batch item's id is already
recorded appends nothing. -/
theorem c10_witness :
    crashHandler dupIdB "boom" [("B", 2)] [⟨"X", ItemStatus.success, none⟩]
      = [⟨"X", ItemStatus.success, none⟩] ∧
    parProcessItems dupIdB 2 ["A", "B"]
      = Except.ok [⟨"X", ItemStatus.success, none⟩] ∧
    (["A", "B"] : List String).length = 2 :=
  c10_duplicate_id_hazard dupIdB "boom" [("B", 2)]
    [⟨"X", ItemStatus.success, none⟩] (by decide)

/-! ### C2 — execution record protocol -/

/-- C2 counterexample: a run over the empty item list writes the initial
running record but no terminal update at all, refuting the claim for "any
item list including the empty list". -/
theorem c2_counterexample :
    ((executePar happyB 5 ([] : List String)).2.filter PEvent.isUpdate).length
      = 0 ∧
    ((executePar happyB 5 ([] : List String)).2.filter PEvent.isCreate).length
      = 1 := by
  decide

/-- C2 as amended: for every run with a NON-EMPTY item list — either
executor, any behaviour — the trace starts with exactly one
`create_execution_record` call (the initial `status=running` record) and
contains exactly one `update_execution_record` call, which is the last event
and carries a terminal status; a run over the empty item list writes only
the initial record. -/
theorem c2_execution_record_protocol {Item : Type} (b : ASTBehavior Item)
    (hostAttached : Bool) (maxSessions : Nat) (items : List Item)
    (hne : items ≠ []) :
    (∃ st, terminalStatusStr st = true ∧
      ((executeSeq b hostAttached items).2.filter PEvent.isUpdate)
        = [PEvent.updateExec st] ∧
      (executeSeq b hostAttached items).2.getLast?
        = some (PEvent.updateExec st)) ∧
    ((executeSeq b hostAttached items).2.filter PEvent.isCreate
      = [PEvent.createExec]) ∧
    ((executeSeq b hostAttached items).2.head? = some PEvent.createExec) ∧
    (∃ st, terminalStatusStr st = true ∧
      ((executePar b maxSessions items).2.filter PEvent.isUpdate)
        = [PEvent.updateExec st] ∧
      (executePar b maxSessions items).2.getLast?
        = some (PEvent.updateExec st)) ∧
    ((executePar b maxSessions items).2.filter PEvent.isCreate
      = [PEvent.createExec]) ∧
    ((executePar b maxSessions items).2.head? = some PEvent.createExec) := by
  have hemp : items.isEmpty = false := by
    cases items with
    | nil => exact absurd rfl hne
    | cons x xs => rfl
  have hterm : terminalStatusStr (if b.isCancelledFinal then "cancelled"
      else "success") = true := by
    by_cases hc : b.isCancelledFinal <;> simp [terminalStatusStr, hc]
  refine ⟨?_, ?_, ?_, ?_, ?_, ?_⟩
  · cases hres : seqProcessItems b hostAttached items with
    | ok rs =>
      rw [executeSeq_ok b hostAttached items rs hemp hres]
      refine ⟨(finalizeResult b items.length rs).2, ?_, ?_, ?_⟩
      · rw [finalizeResult_snd]; exact hterm
      · simp [List.filter_cons, List.filter_append, filter_isUpdate_saveItems,
          PEvent.isUpdate]
      · have hshape : PEvent.createExec ::
            (rs.map (fun r => PEvent.saveItem r.item_id r.status) ++
              [PEvent.logoffAttempt b.logoffOutcome,
               PEvent.updateExec (finalizeResult b items.length rs).2])
            = (PEvent.createExec ::
                (rs.map (fun r => PEvent.saveItem r.item_id r.status) ++
                  [PEvent.logoffAttempt b.logoffOutcome])) ++
              [PEvent.updateExec (finalizeResult b items.length rs).2] := by
          simp
        rw [hshape, List.getLast?_concat]
    | error e =>
      rw [executeSeq_error b hostAttached items e hemp hres]
      exact ⟨"failed", by decide, by simp [PEvent.isUpdate], by simp⟩
  · cases hres : seqProcessItems b hostAttached items with
    | ok rs =>
      rw [executeSeq_ok b hostAttached items rs hemp hres]
      simp [List.filter_cons, List.filter_append, filter_isCreate_saveItems,
        PEvent.isCreate]
    | error e =>
      rw [executeSeq_error b hostAttached items e hemp hres]
      simp [PEvent.isCreate]
  · cases hres : seqProcessItems b hostAttached items with
    | ok rs => rw [executeSeq_ok b hostAttached items rs hemp hres]; rfl
    | error e => rw [executeSeq_error b hostAttached items e hemp hres]; rfl
  · cases hres : parProcessItems b maxSessions items with
    | ok rs =>
      rw [executePar_ok b maxSessions items rs hemp hres]
      refine ⟨(finalizeResult b items.length rs).2, ?_, ?_, ?_⟩
      · rw [finalizeResult_snd]; exact hterm
      · simp [List.filter_cons, List.filter_append, filter_isUpdate_saveItems,
          PEvent.isUpdate]
      · have hshape : PEvent.createExec ::
            (rs.map (fun r => PEvent.saveItem r.item_id r.status) ++
              [PEvent.updateExec (finalizeResult b items.length rs).2])
            = (PEvent.createExec ::
                rs.map (fun r => PEvent.saveItem r.item_id r.status)) ++
              [PEvent.updateExec (finalizeResult b items.length rs).2] := by
          simp
        rw [hshape, List.getLast?_concat]
    | error e =>
      rw [executePar_error b maxSessions items e hemp hres]
      refine ⟨"failed", by decide, ?_, ?_⟩
      · simp [List.filter_cons, List.filter_append, filter_isUpdate_saveItems,
          PEvent.isUpdate]
      · have hshape : PEvent.createExec ::
            ((parValidate b items 0).1.map
                (fun r => PEvent.saveItem r.item_id r.status) ++
              [PEvent.updateExec "failed"])
            = (PEvent.createExec ::
                (parValidate b items 0).1.map
                  (fun r => PEvent.saveItem r.item_id r.status)) ++
              [PEvent.updateExec "failed"] := by
          simp
        rw [hshape, List.getLast?_concat]
  · cases hres : parProcessItems b maxSessions items with
    | ok rs =>
      rw [executePar_ok b maxSessions items rs hemp hres]
      simp [List.filter_cons, List.filter_append, filter_isCreate_saveItems,
        PEvent.isCreate]
    | error e =>
      rw [executePar_error b maxSessions items e hemp hres]
      simp [List.filter_cons, List.filter_append, filter_isCreate_saveItems,
        PEvent.isCreate]
  · cases hres : parProcessItems b maxSessions items with
    | ok rs => rw [executePar_ok b maxSessions items rs hemp hres]; rfl
    | error e => rw [executePar_error b maxSessions items e hemp hres]; rfl

/-- C2 witness: a concrete sequential and parallel run over one item. -/
theorem c2_witness :
    ((executeSeq happyB true ["w"]).2.filter PEvent.isCreate
      = [PEvent.createExec]) ∧
    ((executeSeq happyB true ["w"]).2.head? = some PEvent.createExec) ∧
    ((executePar happyB 2 ["w"]).2.filter PEvent.isCreate
      = [PEvent.createExec]) ∧
    ((executePar happyB 2 ["w"]).2.head? = some PEvent.createExec) :=
  ⟨(c2_execution_record_protocol happyB true 2 ["w"] (by decide)).2.1,
   (c2_execution_record_protocol happyB true 2 ["w"] (by decide)).2.2.1,
   (c2_execution_record_protocol happyB true 2 ["w"] (by decide)).2.2.2.2.1,
   (c2_execution_record_protocol happyB true 2 ["w"] (by decide)).2.2.2.2.2⟩

/-! ### C6 — logoff cleanup -/

/-- C6 counterexample: a sequential run whose authentication fails aborts
before the item loop's try/finally, so `logoff` is never attempted — the
claim's "every sequential execution attempts ast.logoff exactly once" fails.
-/
theorem c6_counterexample :
    (executeSeq authFailB true ["x"]).1.status = ASTStatus.failed ∧
    ((executeSeq authFailB true ["x"]).2.filter PEvent.isLogoff) = [] := by
  decide

/-- The sequential loop is unchanged by behaviour components it never
consults. -/
theorem seqLoop_congr {Item : Type} {b b' : ASTBehavior Item}
    (h1 : b.getItemId = b'.getItemId) (h2 : b.validate = b'.validate)
    (h3 : b.proc = b'.proc) (h4 : b.waitIfPaused = b'.waitIfPaused)
    (total : Nat) : ∀ (items : List Item) (idx : Nat),
      seqLoop b total items idx = seqLoop b' total items idx := by
  intro items
  induction items with
  | nil => intro idx; rfl
  | cons x rest ih =>
    intro idx
    simp only [seqLoop, processSingleItemNoAuth, h1, h2, h3, h4, ih]

/-- The result component of a sequential execution does not depend on the
logoff outcome. -/
theorem executeSeq_fst_logoff_invariant {Item : Type} (b : ASTBehavior Item)
    (o : LogoffOutcome) (hostAttached : Bool) (items : List Item) :
    (executeSeq { b with logoffOutcome := o } hostAttached items).1
      = (executeSeq b hostAttached items).1 := by
  have hloop : seqLoop { b with logoffOutcome := o } items.length items 0
      = seqLoop b items.length items 0 :=
    @seqLoop_congr Item { b with logoffOutcome := o } b rfl rfl rfl rfl
      items.length items 0
  have hproc : seqProcessItems { b with logoffOutcome := o } hostAttached items
      = seqProcessItems b hostAttached items := by
    unfold seqProcessItems
    rw [hloop]
  cases hemp : items.isEmpty with
  | true =>
    unfold executeSeq
    rw [hemp, if_pos rfl, if_pos rfl]
  | false =>
    cases hres : seqProcessItems b hostAttached items with
    | ok rs =>
      rw [executeSeq_ok _ hostAttached items rs hemp (hproc.trans hres),
        executeSeq_ok b hostAttached items rs hemp hres]
      rfl
    | error e =>
      rw [executeSeq_error _ hostAttached items e hemp (hproc.trans hres),
        executeSeq_error b hostAttached items e hemp hres]

/-- C6 as amended: every sequential execution that reaches the item loop —
non-empty items and successful authentication — attempts `ast.logoff`
exactly once, in a cleanup phase after all item records and before the
terminal execution-record update, regardless of per-item failures or
cancellation; and the logoff outcome (failure or exception) never changes
the returned result or the recorded item results. Runs with empty items or
failed authentication never reach the cleanup phase. -/
theorem c6_logoff_cleanup_amended {Item : Type} (b : ASTBehavior Item)
    (items : List Item) (hne : items ≠ []) (hauth : b.authOutcome.1 = true) :
    (((executeSeq b true items).2.filter PEvent.isLogoff)
      = [PEvent.logoffAttempt b.logoffOutcome]) ∧
    ((executeSeq b true items).2
      = PEvent.createExec ::
          ((seqLoop b items.length items 0).map
              (fun r => PEvent.saveItem r.item_id r.status) ++
            [PEvent.logoffAttempt b.logoffOutcome,
             PEvent.updateExec (finalizeResult b items.length
               (seqLoop b items.length items 0)).2])) ∧
    (∀ o₁ o₂ : LogoffOutcome,
      (executeSeq { b with logoffOutcome := o₁ } true items).1
        = (executeSeq { b with logoffOutcome := o₂ } true items).1) := by
  have hemp : items.isEmpty = false := by
    cases items with
    | nil => exact absurd rfl hne
    | cons x xs => rfl
  have hok := seqProcessItems_auth_ok b items hauth
  refine ⟨?_, ?_, ?_⟩
  · rw [executeSeq_ok b true items _ hemp hok]
    simp [List.filter_cons, List.filter_append, filter_isLogoff_saveItems,
      PEvent.isLogoff]
  · rw [executeSeq_ok b true items _ hemp hok]
  · intro o₁ o₂
    exact (executeSeq_fst_logoff_invariant b o₁ true items).trans
      (executeSeq_fst_logoff_invariant b o₂ true items).symm

/-- C6 witness: a concrete run attempts logoff exactly once, and swapping a
raising logoff for a clean one leaves the result unchanged. -/
theorem c6_witness :
    ((executeSeq happyB true ["x"]).2.filter PEvent.isLogoff)
      = [PEvent.logoffAttempt happyB.logoffOutcome] ∧
    (executeSeq { happyB with logoffOutcome := LogoffOutcome.raises "late" }
        true ["x"]).1
      = (executeSeq { happyB with logoffOutcome := LogoffOutcome.ok }
          true ["x"]).1 :=
  ⟨(c6_logoff_cleanup_amended happyB ["x"] (by decide) rfl).1,
   (c6_logoff_cleanup_amended happyB ["x"] (by decide) rfl).2.2
     (LogoffOutcome.raises "late") LogoffOutcome.ok⟩

/-! ### C9 — pause gate, cancel, and loop stopping -/

/-- Unfolding of `seqLoop` on cons. -/
theorem seqLoop_cons_unfold {Item : Type} (b : ASTBehavior Item) (total : Nat)
    (x : Item) (rest : List Item) (idx : Nat) :
    seqLoop b total (x :: rest) idx
      = if ¬ b.waitIfPaused idx then []
        else
          (if ¬ b.validate x then
            ⟨b.getItemId x, ItemStatus.skipped, some "Invalid item"⟩
          else processSingleItemNoAuth b x (idx + 1) total)
            :: seqLoop b total rest (idx + 1) := rfl

/-- With the cancel flag raised from sequential check `k` on, the loop
processes exactly the first `k` items. -/
theorem seqLoop_stop_at {Item : Type} (b : ASTBehavior Item) (total k : Nat)
    (hw : ∀ i, b.waitIfPaused i = decide (i < k)) :
    ∀ (items : List Item) (idx : Nat),
      seqLoop b total items idx
        = seqLoop b total (items.take (k - idx)) idx := by
  intro items
  induction items with
  | nil => intro idx; simp
  | cons x rest ih =>
    intro idx
    by_cases hik : idx < k
    · have hwt : b.waitIfPaused idx = true := by
        rw [hw idx]; exact decide_eq_true hik
      have hk1 : k - idx = (k - (idx + 1)) + 1 := by omega
      rw [seqLoop_cons_unfold, hwt, hk1, List.take_succ_cons,
        seqLoop_cons_unfold, hwt, ih (idx + 1)]
    · have hwf : b.waitIfPaused idx = false := by
        rw [hw idx]; exact decide_eq_false hik
      have hk0 : k - idx = 0 := by omega
      rw [seqLoop_cons_unfold, hwf, hk0, List.take_zero]
      simp [seqLoop]

/-- With `is_cancelled` observed true from batch position `m` on, a worker's
loop processes exactly the first `m` items of its batch. -/
theorem runWorkerLoop_stop_at {Item : Type} (b : ASTBehavior Item)
    (w total m : Nat)
    (hcan : ∀ p, b.cancelAt w p = decide (m ≤ p)) :
    ∀ (batch : List (Item × Nat)) (pos : Nat) (col : List ItemResult),
      runWorkerLoop b w total batch pos col
        = runWorkerLoop b w total (batch.take (m - pos)) pos col := by
  intro batch
  induction batch with
  | nil => intro pos col; simp
  | cons q rest ih =>
    intro pos col
    obtain ⟨item, oi⟩ := q
    by_cases hpm : pos < m
    · have hcf : b.cancelAt w pos = false := by
        rw [hcan pos]; exact decide_eq_false (by omega)
      have hm1 : m - pos = (m - (pos + 1)) + 1 := by omega
      rw [runWorkerLoop_cons, hcf, hm1, List.take_succ_cons,
        runWorkerLoop_cons, hcf, ih (pos + 1)]
    · have hct : b.cancelAt w pos = true := by
        rw [hcan pos]; exact decide_eq_true (by omega)
      have hm0 : m - pos = 0 := by omega
      rw [runWorkerLoop_cons, hct, hm0, List.take_zero]
      simp [runWorkerLoop]

/-- C9: `wait_if_paused` returns false immediately when the AST is
cancelled; while paused (gate cleared) and not cancelled it blocks;
`cancel()` sets the pause event so a paused AST unblocks and the subsequent
`wait_if_paused` returns false; and after cancellation no further items are
started by either executor — the sequential loop processes exactly the items
before the first false `wait_if_paused`, and a parallel worker's loop
processes exactly the batch items before `is_cancelled` is first observed
true. -/
theorem c9_pause_cancel_semantics :
    (∀ s : PauseState, s.cancelled = true → waitIfPausedStep s = some false) ∧
    (∀ s : PauseState, s.cancelled = false → s.eventSet = false →
      waitIfPausedStep s = none) ∧
    (∀ s : PauseState, (astCancel s).eventSet = true ∧
      waitIfPausedStep (astCancel s) = some false) ∧
    (∀ (Item : Type) (b : ASTBehavior Item) (total k : Nat)
        (items : List Item),
      (∀ i, b.waitIfPaused i = decide (i < k)) →
      seqLoop b total items 0 = seqLoop b total (items.take k) 0) ∧
    (∀ (Item : Type) (b : ASTBehavior Item) (w total m : Nat)
        (batch : List (Item × Nat)) (col : List ItemResult),
      (∀ p, b.cancelAt w p = decide (m ≤ p)) →
      runWorkerLoop b w total batch 0 col
        = runWorkerLoop b w total (batch.take m) 0 col) := by
  refine ⟨?_, ?_, ?_, ?_, ?_⟩
  · intro s h
    simp [waitIfPausedStep, h]
  · intro s h1 h2
    simp [waitIfPausedStep, h1, h2]
  · intro s
    exact ⟨rfl, by simp [waitIfPausedStep, astCancel]⟩
  · intro Item b total k items hw
    simpa using seqLoop_stop_at b total k hw items 0
  · intro Item b w total m batch col hcan
    simpa using runWorkerLoop_stop_at b w total m hcan batch 0 col

/-- C9 witness: concrete gate states and a concrete behaviour cancelled
after one item in each executor. -/
theorem c9_witness :
    waitIfPausedStep ⟨true, false, true⟩ = some false ∧
    waitIfPausedStep ⟨true, false, false⟩ = none ∧
    waitIfPausedStep (astCancel (astPause initPauseState)) = some false ∧
    seqLoop cancelAfterOneB 3 ["a", "b", "c"] 0
      = seqLoop cancelAfterOneB 3 (["a", "b", "c"].take 1) 0 ∧
    runWorkerLoop cancelAfterOneB 0 2 [("a", 1), ("b", 2)] 0 []
      = runWorkerLoop cancelAfterOneB 0 2 ([("a", 1), ("b", 2)].take 1) 0 [] :=
  ⟨c9_pause_cancel_semantics.1 ⟨true, false, true⟩ rfl,
   c9_pause_cancel_semantics.2.1 ⟨true, false, false⟩ rfl rfl,
   (c9_pause_cancel_semantics.2.2.1 (astPause initPauseState)).2,
   c9_pause_cancel_semantics.2.2.2.1 String cancelAfterOneB 3 1
     ["a", "b", "c"] (fun _ => rfl),
   c9_pause_cancel_semantics.2.2.2.2 String cancelAfterOneB 0 2 1
     [("a", 1), ("b", 2)] [] (fun _ => rfl)⟩
